import Mathlib

/-!
Shallow embedding of the Speckle-provider Graph-to-GeoJSON conversion engine
(`pygeoapi/provider/speckle.py` and `pygeoapi/provider/speckle_utils/`).

Coordinates are modelled over `ℚ` (the Python code reads native doubles and
performs no arithmetic on them inside the decoder, so the claims about the
decoder are exact over any ordered field); the pre-reprojection transform
`offset_rotate` involves trigonometry and is modelled over `ℝ`.

Python exceptions relevant to the claims are modelled explicitly:
`assign_geometry` can raise `IndexError` (out-of-range vertex lookup in the
mesh branch) and the empty-`displayValue` Brep branch executes a bare
`return`, i.e. returns `None`, which makes the caller's tuple unpacking
`coords, coord_counts = assign_geometry(...)` raise `TypeError`.  Both are
folded into the decoder's result type.
-/

deriving instance DecidableEq for Except

namespace Speckle

/-- A Python exception escaping `assign_geometry`
(`speckle_utils/converter_utils.py`).  `typeError` is what the caller's
unpacking raises when the Brep branch returns `None`; `indexError` is an
out-of-range `vertices[...]` lookup in the mesh branch. -/
inductive PyErr where
  | typeError
  | indexError
deriving DecidableEq, Repr

/-- The geometry-bearing content of a traversed node, as consumed by
`assign_geometry` in `speckle_utils/converter_utils.py`.  Each constructor
carries exactly the fields that function reads:
`point` reads `.x/.y`; `line` reads start/end `.x/.y`; `polyline` reads
`as_points()` (x,y of each) and `.closed`; `curve` reads
`.displayValue.as_points()` and `.displayValue.closed`; `mesh` reads `.faces`
and `.vertices`; `brep` reads `.displayValue` (its mesh's faces/vertices, or
`none` for a `None`/empty display value); the three `gis*` constructors are a
`*.GisFeature` whose `geometry` list is homogeneous of the matching kind
(for `gisPolygon`, each element carries its boundary and void rings via
`as_points()`).  `unsupported` is any other `speckle_type`. -/
inductive SpeckleGeom where
  | point (x y : ℚ)
  | line (x1 y1 x2 y2 : ℚ)
  | polyline (pts : List (ℚ × ℚ)) (closed : Bool)
  | curve (displayPts : List (ℚ × ℚ)) (displayClosed : Bool)
  | mesh (faces : List ℕ) (vertices : List ℚ)
  | brep (display : Option (List ℕ × List ℚ))
  | gisPoint (pts : List (ℚ × ℚ))
  | gisPolyline (geoms : List (List (ℚ × ℚ) × Bool))
  | gisPolygon (polys : List (List (ℚ × ℚ) × List (List (ℚ × ℚ))))
  | unsupported (stype : String)
deriving DecidableEq, Repr

/-- Result of a successful `assign_geometry` call: the `geometry["type"]`
written into the feature (`none` when the branch left the geometry empty),
the flat list of 2D coordinate pairs, and the part-length encoding
(`none` is the multi-part sentinel appended ahead of multi-part types). -/
structure GeomResult where
  gtype : Option String
  coords : List (ℚ × ℚ)
  counts : List (Option (List ℕ))
deriving DecidableEq, Repr

/-- The "old encoding" adjustment of a stored face vertex count
(converter_utils.py lines 52-55): a stored 0 means 3, a stored 1 means 4. -/
def adjustCount (n : ℕ) : ℕ :=
  if n = 0 then 3 else if n = 1 then 4 else n

/-- `vertices[3*v]`, `vertices[3*v+1]` — the x,y lookup of one vertex index
(converter_utils.py lines 58-61); `none` models Python's `IndexError`. -/
def vertex_xy (vertices : List ℚ) (v : ℕ) : Option (ℚ × ℚ) :=
  match vertices[3 * v]?, vertices[3 * v + 1]? with
  | some x, some y => some (x, y)
  | _, _ => none

/-- The mesh face-walk loop of converter_utils.py lines 46-63, written with
an explicit fuel argument so that the recursion is structural (the Python
loop advances `count += pt_count + 1`, i.e. consumes one run per step; fuel
`faces.length` always suffices).  Returns the appended coordinate pairs and
the per-face `[pt_count]` entries, or `none` on an out-of-range vertex
lookup (Python `IndexError`). -/
def mesh_walk_aux (vertices : List ℚ) :
    ℕ → List ℕ → Option (List (ℚ × ℚ) × List (List ℕ))
  | _, [] => some ([], [])
  | 0, _ :: _ => none
  | fuel + 1, n :: rest =>
    match (rest.take (adjustCount n)).mapM (vertex_xy vertices),
          mesh_walk_aux vertices fuel (rest.drop (adjustCount n)) with
    | some cs, some (cs2, cnts) => some (cs ++ cs2, [adjustCount n] :: cnts)
    | _, _ => none

/-- The mesh face-walk at its natural fuel. -/
def meshWalk (vertices : List ℚ) (faces : List ℕ) :
    Option (List (ℚ × ℚ) × List (List ℕ)) :=
  mesh_walk_aux vertices faces.length faces

/-- The Mesh/Brep body of `assign_geometry` (converter_utils.py lines 23-63):
type `MultiPolygon`, a leading `None` sentinel, then one `[pt_count]` entry
per face. -/
def decode_mesh (faces : List ℕ) (vertices : List ℚ) :
    Except PyErr GeomResult :=
  match meshWalk vertices faces with
  | some (cs, cnts) => .ok ⟨some "MultiPolygon", cs, none :: cnts.map some⟩
  | none => .error .indexError

/-- The closing step of the Polyline/Curve branches (converter_utils.py
lines 126-127 and 135-136): append the first point when more than two points
were sampled, the source is marked closed, and first ≠ last. -/
def close_pts (cs : List (ℚ × ℚ)) (closed : Bool) : List (ℚ × ℚ) :=
  if 2 < cs.length ∧ closed = true ∧ cs.headD (0, 0) ≠ cs.getLastD (0, 0)
  then cs ++ [cs.headD (0, 0)] else cs

/-- The GisFeature-of-polylines loop (converter_utils.py lines 80-91).
Faithful to the source's quirk: the closing test reads the *accumulated*
`coords` list of the whole feature (`coords[0]`, `coords[-1]`,
`len(coords) > 2`), not the current polyline's own points.  Returns the full
coordinate list and the per-geometry `[local_poly_count]` entries. -/
def gis_polyline_walk :
    List (List (ℚ × ℚ) × Bool) → List (ℚ × ℚ) →
    List (ℚ × ℚ) × List (List ℕ)
  | [], coords => (coords, [])
  | (pts, closed) :: rest, coords =>
    let c1 := coords ++ pts
    let app : Bool := decide (2 < c1.length ∧ closed = true ∧
      c1.headD (0, 0) ≠ c1.getLastD (0, 0))
    let c2 := if app then c1 ++ [c1.headD (0, 0)] else c1
    let n2 := if app then pts.length + 1 else pts.length
    let res := gis_polyline_walk rest c2
    (res.1, [n2] :: res.2)

/-- Shallow embedding of `assign_geometry`
(`speckle_utils/converter_utils.py`, lines 5-144).  Dispatch follows the
`isinstance`/`speckle_type` chain of the source; each branch produces the
`geometry["type"]` it assigns, the coordinate pairs it appends and the
`coord_counts` entries it appends, in order.  A `*.GisFeature` with an empty
`geometry` list falls through to the final `else` (empty geometry), which the
empty-list cases of the `gis*` constructors reproduce. -/
def assign_geometry : SpeckleGeom → Except PyErr GeomResult
  | .point x y => .ok ⟨some "MultiPoint", [(x, y)], [none, some [1]]⟩
  | .mesh faces vertices => decode_mesh faces vertices
  | .brep none => .error .typeError
  | .brep (some (faces, vertices)) => decode_mesh faces vertices
  | .gisPoint pts =>
    if pts.isEmpty then .ok ⟨none, [], []⟩
    else .ok ⟨some "MultiPoint", pts, none :: pts.map (fun _ => some [1])⟩
  | .gisPolyline geoms =>
    if geoms.isEmpty then .ok ⟨none, [], []⟩
    else
      let res := gis_polyline_walk geoms []
      .ok ⟨some "MultiLineString", res.1, none :: res.2.map some⟩
  | .gisPolygon polys =>
    if polys.isEmpty then .ok ⟨none, [], []⟩
    else .ok ⟨some "MultiPolygon",
      polys.flatMap (fun p => p.1 ++ p.2.flatten),
      none :: polys.map (fun p => some (p.1.length :: p.2.map List.length))⟩
  | .line x1 y1 x2 y2 => .ok ⟨some "LineString", [(x1, y1), (x2, y2)], [some [2]]⟩
  | .polyline pts closed =>
    let cs := close_pts pts closed
    .ok ⟨some "LineString", cs, [some [cs.length]]⟩
  | .curve pts closed =>
    let cs := close_pts pts closed
    .ok ⟨some "LineString", cs, [some [cs.length]]⟩
  | .unsupported _ => .ok ⟨none, [], []⟩

/-- Total of the integer part-length entries of a `coord_counts` encoding,
ignoring the `None` multi-part sentinel and summing nested per-ring lists. -/
def sum_counts (counts : List (Option (List ℕ))) : ℕ :=
  (counts.map (fun o => (o.getD []).sum)).sum

/-- A traversal-context entry as consumed by `initialize_features`
(`speckle_utils/feature_utils.py`): the node's `speckle_type` and `id`, plus
the displayable object(s) the two display lookups of
`speckle_utils/display_utils.py` resolve for it — `displayObj` is the result
of `find_display_obj` (used on the attribute-preserving path) and
`displayObjs` the result of `find_list_of_display_obj` (used on the
decomposing path).  The lookups themselves operate on external `specklepy`
objects, so their results are carried as data. -/
structure CtxItem where
  stype : String
  itemId : String
  displayObj : SpeckleGeom
  displayObjs : List SpeckleGeom
deriving DecidableEq, Repr

/-- One produced ordinary feature: the `FID`, the `properties["id"]` value,
the stored (colon-split) `speckle_type`, the assigned `geometry["type"]`, and
the `bbox` written by `get_feature_bbox` (feature_utils.py lines 84 / 127).
The dict fields fed from the modules absent from the provider sources
(property extraction, display properties) are not modelled. -/
structure Feature where
  fid : ℕ
  featId : String
  stype : String
  gtype : Option String
  bbox : List ℚ
deriving DecidableEq, Repr

/-- One produced comment feature (feature_utils.py lines 140-168); its dict
carries no `bbox` key. -/
structure CFeature where
  commId : String
deriving DecidableEq, Repr

/-- `get_feature_bbox` (feature_utils.py lines 180-188): `[x0, y0, x1, y1]`
from the mins/maxes of the coordinate list it is given (only ever called on
a non-empty list; the empty case is arbitrary). -/
def get_feature_bbox : List (ℚ × ℚ) → List ℚ
  | [] => []
  | c :: cs =>
    [(cs.map Prod.fst).foldl min c.1, (cs.map Prod.snd).foldl min c.2,
     (cs.map Prod.fst).foldl max c.1, (cs.map Prod.snd).foldl max c.2]

/-- `speckle_type.split(":")[-1]` (feature_utils.py lines 37-39 / 105): the
segment after the last colon (the whole string when it has none), written on
the character list so that it evaluates by kernel reduction. -/
def splitType (t : String) : String :=
  ⟨(t.data.reverse.takeWhile (fun c => c ≠ ':')).reverse⟩

/-- Python's `str.endswith`, written on the character lists. -/
def str_ends_with (t suffix : String) : Bool :=
  suffix.data.isSuffixOf t.data

/-- The organizational-container test of feature_utils.py line 25:
`speckle_type` ends with `Collection`, `Layer` or `Proxy`. -/
def isContainer (t : String) : Bool :=
  str_ends_with t "Collection" || str_ends_with t "Layer" || str_ends_with t "Proxy"

/-- The truncation notice `f" (feature count limited to {self.limit})"`
(feature_utils.py lines 29 / 137). -/
def limit_msg (limit : ℕ) : String :=
  " (feature count limited to " ++ toString limit ++ ")"

/-- Assembly of one ordinary feature dict from a decode result
(feature_utils.py lines 41-53 / 83-85 and 95-107 / 126-128): sequential
`FID`, id string, split type, the geometry type written by the decoder, and
the bbox of the decoder's (pre-transform) coordinates. -/
def mkFeature (stype featId : String) (fid : ℕ) (r : GeomResult) : Feature :=
  ⟨fid, featId, stype, r.gtype, get_feature_bbox r.coords⟩

/-- The inner loop of the decomposing (`preserve_attributes` off) path
(feature_utils.py lines 91-129): one candidate feature per display object,
ids suffixed `_k`, `TypeError` re-raised (modelled as `Except.error`), all
other exceptions swallowed, a feature appended only when coordinates were
produced.  Carries the shared `all_coords`/`all_coord_counts` buffers and
the feature counter. -/
def inner_loop (stype fId : String) :
    List SpeckleGeom → ℕ → List Feature → List (ℚ × ℚ) →
    List (List (Option (List ℕ))) → ℕ →
    Except Unit (List Feature × List (ℚ × ℚ) ×
      List (List (Option (List ℕ))) × ℕ)
  | [], _, fs, ac, cc, cnt => .ok (fs, ac, cc, cnt)
  | g :: gs, k, fs, ac, cc, cnt =>
    match assign_geometry g with
    | .error .typeError => .error ()
    | .error .indexError => inner_loop stype fId gs (k + 1) fs ac cc cnt
    | .ok r =>
      if r.coords = [] then inner_loop stype fId gs (k + 1) fs ac cc cnt
      else inner_loop stype fId gs (k + 1)
        (fs ++ [mkFeature stype (fId ++ "_" ++ toString k) (cnt + 1) r])
        (ac ++ r.coords) (cc ++ [r.counts]) (cnt + 1)

/-- Aggregate result of the feature-creation loops: the produced features,
the shared flat coordinate buffer, the per-feature part-length encodings,
and `self.limit_message` (empty when the limit was never hit). -/
structure RunOut where
  features : List Feature
  all_coords : List (ℚ × ℚ)
  all_counts : List (List (Option (List ℕ)))
  message : String
deriving DecidableEq, Repr

/-- The main item loop of `initialize_features` (feature_utils.py
lines 23-129): containers (`...Collection`/`...Layer`/`...Proxy`) are
skipped; when the feature count has reached `self.limit` the truncation
message is recorded and the loop breaks; otherwise the item is decoded on
the attribute-preserving path (one candidate feature from
`find_display_obj`) or the decomposing path (`inner_loop` over
`find_list_of_display_obj`).  `TypeError` from the decode is re-raised
(aborting the run, feature_utils.py lines 64-65 / 113-114); any other
exception is printed and swallowed (lines 66-68 / 115-117). -/
def main_loop (limit : ℕ) (preserve : Bool) :
    List CtxItem → List Feature → List (ℚ × ℚ) →
    List (List (Option (List ℕ))) → ℕ → String → Except Unit RunOut
  | [], fs, ac, cc, _, msg => .ok ⟨fs, ac, cc, msg⟩
  | it :: rest, fs, ac, cc, cnt, msg =>
    if isContainer it.stype then main_loop limit preserve rest fs ac cc cnt msg
    else if limit ≤ cnt then .ok ⟨fs, ac, cc, limit_msg limit⟩
    else if preserve then
      match assign_geometry it.displayObj with
      | .error .typeError => .error ()
      | .error .indexError => main_loop limit preserve rest fs ac cc cnt msg
      | .ok r =>
        if r.coords = [] then main_loop limit preserve rest fs ac cc cnt msg
        else main_loop limit preserve rest
          (fs ++ [mkFeature (splitType it.stype) it.itemId (cnt + 1) r])
          (ac ++ r.coords) (cc ++ [r.counts]) (cnt + 1) msg
    else
      match inner_loop (splitType it.stype) it.itemId it.displayObjs 0 fs ac cc cnt with
      | .error e => .error e
      | .ok (fs2, ac2, cc2, cnt2) =>
        main_loop limit preserve rest fs2 ac2 cc2 cnt2 msg

/-- The ordinary-feature pass of `initialize_features`, started on empty
accumulators. -/
def runMain (limit : ℕ) (preserve : Bool) (items : List CtxItem) :
    Except Unit RunOut :=
  main_loop limit preserve items [] [] [] 0 ""

/-- One entry of the caller-supplied comment map: its key and the thread's
`position` object handed to `assign_geometry`. -/
structure CommentItem where
  commId : String
  position : SpeckleGeom
deriving DecidableEq, Repr

/-- The comment pass of `initialize_features` (feature_utils.py
lines 134-168): limit test against the number of comment features so far,
decode of `comment["position"]` with *every* exception swallowed
(`except Exception`, line 160), append only when coordinates were
produced. -/
def comments_loop (limit : ℕ) :
    List CommentItem → List CFeature → List (ℚ × ℚ) →
    List (List (Option (List ℕ))) → String →
    List CFeature × List (ℚ × ℚ) × List (List (Option (List ℕ))) × String
  | [], cs, ac, cc, msg => (cs, ac, cc, msg)
  | c :: rest, cs, ac, cc, msg =>
    if limit ≤ cs.length then (cs, ac, cc, limit_msg limit)
    else
      match assign_geometry c.position with
      | .error _ => comments_loop limit rest cs ac cc msg
      | .ok r =>
        if r.coords = [] then comments_loop limit rest cs ac cc msg
        else comments_loop limit rest (cs ++ [⟨c.commId⟩])
          (ac ++ r.coords) (cc ++ [r.counts]) msg

/-- Everything `initialize_features` has produced just before its final
zero-feature check (feature_utils.py line 171). -/
structure PhaseOut where
  features : List Feature
  comments : List CFeature
  all_coords : List (ℚ × ℚ)
  all_counts : List (List (Option (List ℕ)))
  message : String
deriving DecidableEq, Repr

/-- The two alternative passes of `initialize_features` (feature_utils.py
lines 22 and 132): ordinary features unless `projectcomments` was requested,
comment features otherwise.  An uncaught `TypeError` from the ordinary pass
propagates as `Except.error`. -/
def run_phase (limit : ℕ) (preserve : Bool) (rdt : String)
    (items : List CtxItem) (comments : List CommentItem) :
    Except Unit PhaseOut :=
  if rdt ≠ "projectcomments" then
    match runMain limit preserve items with
    | .error e => .error e
    | .ok out => .ok ⟨out.features, [], out.all_coords, out.all_counts, out.message⟩
  else
    match comments_loop limit comments [] [] [] "" with
    | (cs, ac, cc, msg) => .ok ⟨[], cs, ac, cc, msg⟩

/-- How a conversion run terminates abnormally: the re-raised `TypeError`,
or the `ValueError` of feature_utils.py lines 171-172 ("No supported
features ... found"). -/
inductive RunError where
  | typeErr
  | noSupportedFeatures
deriving DecidableEq, Repr

/-- `initialize_features` (feature_utils.py lines 6-177): run the loops,
then raise the zero-feature `ValueError` when neither ordinary nor comment
features were produced. -/
def init_features (limit : ℕ) (preserve : Bool) (rdt : String)
    (items : List CtxItem) (comments : List CommentItem) :
    Except RunError PhaseOut :=
  match run_phase limit preserve rdt items comments with
  | .error _ => .error .typeErr
  | .ok out =>
    if out.features = [] ∧ out.comments = [] then .error .noSupportedFeatures
    else .ok out

/-- Re-slicing of the (transformed) flat buffer: each feature consumes as
many pairs as its part-length encoding totals, in append order. -/
def bulk_slices (buf : List (ℚ × ℚ)) :
    List (List (Option (List ℕ))) → List (List (ℚ × ℚ))
  | [] => []
  | c :: cs => buf.take (sum_counts c) :: bulk_slices (buf.drop (sum_counts c)) cs

/-- Modelled from the spec: `reproject_bulk` of
`speckle_utils/coords_utils.py` is imported by `create_features` but the
module is not among the provider sources.  Per spec §4.4 it applies the
per-point transform chain (rotation, unit scaling, translation, and the
CRS→WGS84 reprojection performed by the external `pyproj` transformer) to
the whole concatenated buffer, then re-slices the result back into each
feature's geometry by its part-length encoding in append order; the
per-point chain is abstracted as the parameter `T`.  It receives only the
geometry dicts (`create_features`, feature_utils.py line 236), so it cannot
touch any other feature field. -/
def reproject_bulk (T : ℚ × ℚ → ℚ × ℚ) (ac : List (ℚ × ℚ))
    (cc : List (List (Option (List ℕ)))) : List (List (ℚ × ℚ)) :=
  bulk_slices (ac.map T) cc

/-- `create_features` (feature_utils.py lines 227-236): initialize features
on empty buffers, then hand `all_coords`/`all_coord_counts` and the geometry
of `data["features"] + data["comments"]` to the bulk reprojection.  The
result pairs every produced feature with its post-transform geometry
coordinates. -/
def create_features (T : ℚ × ℚ → ℚ × ℚ) (limit : ℕ) (preserve : Bool)
    (rdt : String) (items : List CtxItem) (comments : List CommentItem) :
    Except RunError (List ((Feature ⊕ CFeature) × List (ℚ × ℚ))) :=
  match init_features limit preserve rdt items comments with
  | .error e => .error e
  | .ok out => .ok ((out.features.map Sum.inl ++ out.comments.map Sum.inr).zip
      (reproject_bulk T out.all_coords out.all_counts))

/-- The offset/rotation-bearing CRS dictionary consumed by `offset_rotate`
(`speckle.py` lines 614-634): `crs["rotation"]` (degrees), the offsets, and
the native-unit-to-meter factor that the source obtains from the external
`specklepy` helper `get_scale_factor_from_string` (1 when no unit string is
present). -/
structure CRSDict where
  rotation : ℝ
  offset_x : ℝ
  offset_y : ℝ
  scale_factor : ℝ

/-- `offset_rotate` (`speckle.py` lines 614-634): per point, rotate by
`rotation` degrees with the standard 2D rotation matrix, then add the
offsets, then multiply both axes by the scale factor —
`scale_factor * (x2 + offset_x)`, `scale_factor * (y2 + offset_y)`. -/
noncomputable def offset_rotate (crs : CRSDict) (coords_in : List (ℝ × ℝ)) : List (ℝ × ℝ) :=
  coords_in.map (fun c =>
    (crs.scale_factor *
      ((c.1 * Real.cos (crs.rotation * Real.pi / 180) -
        c.2 * Real.sin (crs.rotation * Real.pi / 180)) + crs.offset_x),
     crs.scale_factor *
      ((c.1 * Real.sin (crs.rotation * Real.pi / 180) +
        c.2 * Real.cos (crs.rotation * Real.pi / 180)) + crs.offset_y)))

/-- Rotation by `theta_deg` degrees with the standard 2D rotation matrix. -/
noncomputable def rotate_point (theta_deg : ℝ) (c : ℝ × ℝ) : ℝ × ℝ :=
  (c.1 * Real.cos (theta_deg * Real.pi / 180) -
    c.2 * Real.sin (theta_deg * Real.pi / 180),
   c.1 * Real.sin (theta_deg * Real.pi / 180) +
    c.2 * Real.cos (theta_deg * Real.pi / 180))

/-- Uniform scaling of both axes. -/
noncomputable def scale_point (s : ℝ) (c : ℝ × ℝ) : ℝ × ℝ := (s * c.1, s * c.2)

/-- Translation by an offset pair. -/
noncomputable def translate_point (ox oy : ℝ) (c : ℝ × ℝ) : ℝ × ℝ := (c.1 + ox, c.2 + oy)

/-- The per-point transform the spec sentence ascribes to `offset_rotate`:
rotate, then scale, then translate — `(s*x2 + offset_x, s*y2 + offset_y)`. -/
noncomputable def claimed_transform (crs : CRSDict) (c : ℝ × ℝ) : ℝ × ℝ :=
  translate_point crs.offset_x crs.offset_y
    (scale_point crs.scale_factor (rotate_point crs.rotation c))

/-- The default anchor latitude, `self.lat` (`speckle.py` line 109). -/
def default_lat : ℚ := 51.52486388756923

/-- The default anchor longitude, `self.lon` (`speckle.py` line 110). -/
def default_lon : ℚ := 0.1621445437168942

/-- The `PARAMETER[...]` entries, in order, of the WKT string synthesized
when no CRS declaration was found — identical in `create_crs_default`
(`speckle_utils/crs_utils.py` lines 18-25) and `traverse_data`
(`speckle.py` line 432): False_Easting 0, False_Northing 0,
Central_Meridian = `self.lon`, Scale_Factor 1,
Latitude_Of_Origin = `self.lat`. -/
def speckle_crs_wkt_params (lat lon : ℚ) : List (String × ℚ) :=
  [("False_Easting", 0), ("False_Northing", 0), ("Central_Meridian", lon),
   ("Scale_Factor", 1), ("Latitude_Of_Origin", lat)]

/-- The `PROJECTION[...]` entry of the synthesized WKT. -/
def speckle_crs_projection : String := "Transverse_Mercator"

/-- The `SPHEROID[...]` entry of the synthesized WKT: name, semi-major
axis, inverse flattening. -/
def speckle_crs_spheroid : String × ℚ × ℚ := ("WGS_1984", 6378137.0, 298.257223563)

/-- Flattening of a list of face runs `(stored_count, vertex_indices)` back
into the flat run-length `faces` list the mesh encoding stores. -/
def encode_runs : List (ℕ × List ℕ) → List ℕ
  | [] => []
  | (n, idxs) :: rs => n :: (idxs ++ encode_runs rs)

/-- A `faces` list is a well-formed run-length encoding when it flattens a
run list in which every run carries exactly its (adjusted) count of vertex
indices. -/
def runs_wellformed (faces : List ℕ) : Prop :=
  ∃ rs : List (ℕ × List ℕ),
    faces = encode_runs rs ∧ ∀ r ∈ rs, (r.2).length = adjustCount r.1

/-- Well-formedness of the face encoding of a node, trivial for the
non-mesh constructors. -/
def geom_wellformed : SpeckleGeom → Prop
  | .mesh faces _ => runs_wellformed faces
  | .brep (some p) => runs_wellformed p.1
  | _ => True

lemma vertex_xy_of_lt (vertices : List ℚ) (v : ℕ)
    (h : 3 * v + 1 < vertices.length) :
    vertex_xy vertices v =
      some (vertices.getD (3 * v) 0, vertices.getD (3 * v + 1) 0) := by
  have h0 : 3 * v < vertices.length := lt_of_le_of_lt (Nat.le_succ _) h
  simp [vertex_xy, List.getElem?_eq_getElem h0, List.getElem?_eq_getElem h,
    List.getD_eq_getElem?_getD, List.getElem?_eq_getElem]

lemma mapM_vertex_xy (vertices : List ℚ) :
    ∀ idxs : List ℕ, (∀ v ∈ idxs, 3 * v + 1 < vertices.length) →
      idxs.mapM (vertex_xy vertices) =
        some (idxs.map (fun v =>
          (vertices.getD (3 * v) 0, vertices.getD (3 * v + 1) 0)))
  | [], _ => rfl
  | v :: idxs, h => by
    have hv := h v (List.mem_cons_self v idxs)
    have hrest := mapM_vertex_xy vertices idxs
      (fun w hw => h w (List.mem_cons_of_mem v hw))
    rw [List.mapM_cons, vertex_xy_of_lt vertices v hv, hrest]
    rfl

lemma mesh_walk_aux_fuel (vertices : List ℚ) :
    ∀ f1 : ℕ, ∀ f2 : ℕ, ∀ faces : List ℕ, faces.length ≤ f1 → faces.length ≤ f2 →
      mesh_walk_aux vertices f1 faces = mesh_walk_aux vertices f2 faces := by
  intro f1
  induction f1 with
  | zero =>
    intro f2 faces h1 _
    have : faces = [] := List.eq_nil_of_length_eq_zero (Nat.le_zero.mp h1)
    subst this
    simp [mesh_walk_aux]
  | succ f1 ih =>
    intro f2 faces h1 h2
    match faces with
    | [] => simp [mesh_walk_aux]
    | n :: rest =>
      match f2 with
      | 0 => simp at h2
      | f2 + 1 =>
        simp only [List.length_cons, Nat.add_le_add_iff_right] at h1 h2
        simp only [mesh_walk_aux]
        rw [ih f2 (rest.drop (adjustCount n))
          (by simp only [List.length_drop]; omega)
          (by simp only [List.length_drop]; omega)]

lemma meshWalk_cons (vertices : List ℚ) (n : ℕ) (rest : List ℕ) :
    meshWalk vertices (n :: rest) =
      match (rest.take (adjustCount n)).mapM (vertex_xy vertices),
            meshWalk vertices (rest.drop (adjustCount n)) with
      | some cs, some (cs2, cnts) => some (cs ++ cs2, [adjustCount n] :: cnts)
      | _, _ => none := by
  show mesh_walk_aux vertices (rest.length + 1) (n :: rest) = _
  simp only [mesh_walk_aux]
  rw [mesh_walk_aux_fuel vertices rest.length (rest.drop (adjustCount n)).length
    (rest.drop (adjustCount n)) (by simp [List.length_drop]) (le_refl _)]
  rfl

lemma meshWalk_encode (vertices : List ℚ) :
    ∀ rs : List (ℕ × List ℕ),
      (∀ r ∈ rs, (r.2).length = adjustCount r.1) →
      (∀ r ∈ rs, ∀ v ∈ r.2, 3 * v + 1 < vertices.length) →
      meshWalk vertices (encode_runs rs) =
        some (rs.flatMap (fun r => r.2.map (fun v =>
                (vertices.getD (3 * v) 0, vertices.getD (3 * v + 1) 0))),
              rs.map (fun r => [adjustCount r.1]))
  | [], _, _ => rfl
  | (n, idxs) :: rs, hlen, hbound => by
    have hn : idxs.length = adjustCount n := hlen (n, idxs) (List.mem_cons_self _ _)
    have htake : (idxs ++ encode_runs rs).take (adjustCount n) = idxs := by
      rw [← hn]; exact List.take_left idxs (encode_runs rs)
    have hdrop : (idxs ++ encode_runs rs).drop (adjustCount n) = encode_runs rs := by
      rw [← hn]; exact List.drop_left idxs (encode_runs rs)
    have hrec := meshWalk_encode vertices rs
      (fun r hr => hlen r (List.mem_cons_of_mem _ hr))
      (fun r hr => hbound r (List.mem_cons_of_mem _ hr))
    have hmap := mapM_vertex_xy vertices idxs
      (hbound (n, idxs) (List.mem_cons_self _ _))
    rw [encode_runs, meshWalk_cons, htake, hdrop, hmap, hrec]
    simp

/-- C2.  For every Mesh (and Brep whose display value carries the same mesh
data) whose faces list is a well-formed run-length encoding with in-range
vertex indices, `assign_geometry` produces geometry type `MultiPolygon` and,
per face in stored order, one `[adjusted count]` part entry and the
coordinate pairs `(vertices[3*i], vertices[3*i+1])` of its vertex indices in
stored order (a stored count of 0 read as 3 and 1 as 4, via
`adjustCount`). -/
theorem mesh_decode_wellformed (rs : List (ℕ × List ℕ)) (vertices : List ℚ)
    (hlen : ∀ r ∈ rs, (r.2).length = adjustCount r.1)
    (hbound : ∀ r ∈ rs, ∀ v ∈ r.2, 3 * v + 1 < vertices.length) :
    assign_geometry (.mesh (encode_runs rs) vertices) =
      .ok ⟨some "MultiPolygon",
        rs.flatMap (fun r => r.2.map (fun v =>
          (vertices.getD (3 * v) 0, vertices.getD (3 * v + 1) 0))),
        none :: rs.map (fun r => some [adjustCount r.1])⟩ := by
  simp [assign_geometry, decode_mesh, meshWalk_encode vertices rs hlen hbound,
    List.map_map, Function.comp]

/-- Witness for C2 at the spec's round-trip example: face run `[3, 0,1,2]`
with vertices `(0,0,0),(1,0,0),(0,1,0)` decodes to one MultiPolygon part of
ring length 3 with coordinates `[(0,0),(1,0),(0,1)]`. -/
theorem mesh_decode_wellformed_witness :
    (∀ r ∈ [((3 : ℕ), [0, 1, 2])], (r.2).length = adjustCount r.1) ∧
    (∀ r ∈ [((3 : ℕ), [0, 1, 2])], ∀ v ∈ r.2,
      3 * v + 1 < ([0, 0, 0, 1, 0, 0, 0, 1, 0] : List ℚ).length) ∧
    encode_runs [((3 : ℕ), [0, 1, 2])] = [3, 0, 1, 2] ∧
    assign_geometry (.mesh (encode_runs [((3 : ℕ), [0, 1, 2])])
        [0, 0, 0, 1, 0, 0, 0, 1, 0]) =
      .ok ⟨some "MultiPolygon",
        [((3 : ℕ), [0, 1, 2])].flatMap (fun r => r.2.map (fun v =>
          (([0, 0, 0, 1, 0, 0, 0, 1, 0] : List ℚ).getD (3 * v) 0,
           ([0, 0, 0, 1, 0, 0, 0, 1, 0] : List ℚ).getD (3 * v + 1) 0))),
        none :: [((3 : ℕ), [0, 1, 2])].map (fun r => some [adjustCount r.1])⟩ ∧
    assign_geometry (.mesh [3, 0, 1, 2] [0, 0, 0, 1, 0, 0, 0, 1, 0]) =
      .ok ⟨some "MultiPolygon", [(0, 0), (1, 0), (0, 1)], [none, some [3]]⟩ :=
  ⟨by decide, by decide, by decide,
   mesh_decode_wellformed [((3 : ℕ), [0, 1, 2])] [0, 0, 0, 1, 0, 0, 0, 1, 0]
     (by decide) (by decide), by decide⟩

/-- C3 (amended).  A Polyline (and a Curve via its display polyline) decodes
to a `LineString` whose coordinates are all sampled vertices in order, with
the first point appended exactly when *more than two* points were sampled,
the source is marked closed, and the first and last points differ; the part
length is the final coordinate count, and a polyline whose first and last
points already coincide is left unchanged. -/
theorem polyline_closing (pts : List (ℚ × ℚ)) (closed : Bool) :
    assign_geometry (.polyline pts closed) =
      .ok ⟨some "LineString", close_pts pts closed,
        [some [(close_pts pts closed).length]]⟩ ∧
    assign_geometry (.curve pts closed) =
      .ok ⟨some "LineString", close_pts pts closed,
        [some [(close_pts pts closed).length]]⟩ ∧
    close_pts pts closed =
      (if 2 < pts.length ∧ closed = true ∧ pts.headD (0, 0) ≠ pts.getLastD (0, 0)
       then pts ++ [pts.headD (0, 0)] else pts) ∧
    (pts.headD (0, 0) = pts.getLastD (0, 0) → close_pts pts closed = pts) := by
  refine ⟨rfl, rfl, rfl, fun h => ?_⟩
  simp only [close_pts]
  rw [if_neg]
  rintro ⟨-, -, hne⟩
  exact hne h

/-- Witness for C3 (amended) at the spec's closing example
`[(0,0),(1,0),(1,1)]`, closed, and idempotence at the already-closed
`[(0,0),(1,0),(1,1),(0,0)]`. -/
theorem polyline_closing_witness :
    close_pts [(0, 0), (1, 0), (1, 1), (0, 0)] true =
      [(0, 0), (1, 0), (1, 1), (0, 0)] ∧
    assign_geometry (.polyline [(0, 0), (1, 0), (1, 1)] true) =
      .ok ⟨some "LineString", close_pts [(0, 0), (1, 0), (1, 1)] true,
        [some [(close_pts [(0, 0), (1, 0), (1, 1)] true).length]]⟩ ∧
    close_pts [(0, 0), (1, 0), (1, 1)] true = [(0, 0), (1, 0), (1, 1), (0, 0)] :=
  ⟨(polyline_closing [(0, 0), (1, 0), (1, 1), (0, 0)] true).2.2.2 (by decide),
   (polyline_closing [(0, 0), (1, 0), (1, 1)] true).1, by decide⟩

/-- Counterexample to C3 as stated: the two-point polyline `[(0,0),(1,0)]`
marked closed has differing first and last points, yet the decoder does not
append the first point (the source requires strictly more than two sampled
points before closing). -/
theorem polyline_closing_counterexample :
    assign_geometry (.polyline [(0, 0), (1, 0)] true) =
      .ok ⟨some "LineString", [(0, 0), (1, 0)], [some [2]]⟩ ∧
    ((0 : ℚ), (0 : ℚ)) ≠ ((1 : ℚ), (0 : ℚ)) ∧
    ([((0 : ℚ), (0 : ℚ)), (1, 0)] : List (ℚ × ℚ)) ≠ [(0, 0), (1, 0), (0, 0)] := by
  decide

/-- C1 (amended).  `offset_rotate` maps every input point to the result of
rotating it by the CRS rotation (degrees) with the standard 2D rotation
matrix, then translating by `(offset_x, offset_y)`, then scaling both axes
by the unit scale factor: `(s*(x2+offset_x), s*(y2+offset_y))`. -/
theorem offset_rotate_amended (crs : CRSDict) (coords_in : List (ℝ × ℝ)) :
    offset_rotate crs coords_in = coords_in.map (fun c =>
      scale_point crs.scale_factor
        (translate_point crs.offset_x crs.offset_y
          (rotate_point crs.rotation c))) := rfl

/-- Counterexample to C1 as stated: with rotation 0, unit scale 2 and
offset `(1, 0)`, the source scales the translated point — `2*(0+1) = 2` —
while the claimed rotate-scale-translate order yields `2*0 + 1 = 1`. -/
theorem offset_rotate_counterexample :
    offset_rotate ⟨0, 1, 0, 2⟩ [(0, 0)] = [((2 : ℝ), 0)] ∧
    claimed_transform ⟨0, 1, 0, 2⟩ (0, 0) = ((1 : ℝ), 0) ∧
    ((2 : ℝ), (0 : ℝ)) ≠ ((1 : ℝ), (0 : ℝ)) := by
  refine ⟨?_, ?_, ?_⟩
  · norm_num [offset_rotate]
  · norm_num [claimed_transform, translate_point, scale_point, rotate_point]
  · norm_num [Prod.ext_iff]

/-- C7.  The CRS synthesized when no declaration is found is a Transverse
Mercator projection over the WGS84 spheroid whose Central_Meridian is the
supplied longitude, Latitude_Of_Origin the supplied latitude, with zero
false easting/northing and unit scale factor; at the default anchor the
central meridian is the default longitude and the latitude of origin the
default latitude. -/
theorem synthesized_crs_parameters (lat lon : ℚ) :
    (speckle_crs_wkt_params lat lon).lookup "Central_Meridian" = some lon ∧
    (speckle_crs_wkt_params lat lon).lookup "Latitude_Of_Origin" = some lat ∧
    (speckle_crs_wkt_params lat lon).lookup "False_Easting" = some 0 ∧
    (speckle_crs_wkt_params lat lon).lookup "False_Northing" = some 0 ∧
    (speckle_crs_wkt_params lat lon).lookup "Scale_Factor" = some 1 ∧
    speckle_crs_projection = "Transverse_Mercator" ∧
    speckle_crs_spheroid.1 = "WGS_1984" ∧
    (speckle_crs_wkt_params default_lat default_lon).lookup "Central_Meridian" =
      some default_lon ∧
    (speckle_crs_wkt_params default_lat default_lon).lookup "Latitude_Of_Origin" =
      some default_lat :=
  ⟨rfl, rfl, rfl, rfl, rfl, rfl, rfl, rfl, rfl⟩

lemma sum_counts_cons (o : Option (List ℕ)) (l : List (Option (List ℕ))) :
    sum_counts (o :: l) = (o.getD []).sum + sum_counts l := by
  simp [sum_counts]

lemma mapM_some_length {α β : Type} (f : α → Option β) :
    ∀ l : List α, ∀ l2 : List β, l.mapM f = some l2 → l2.length = l.length
  | [], l2, h => by
    simp only [List.mapM_nil, Option.pure_def, Option.some.injEq] at h
    simp [← h]
  | a :: l, l2, h => by
    rw [List.mapM_cons] at h
    match hfa : f a with
    | none => rw [hfa] at h; simp at h
    | some b =>
      rw [hfa] at h
      match hrest : l.mapM f with
      | none => rw [hrest] at h; simp at h
      | some bs =>
        rw [hrest] at h
        simp at h
        have := mapM_some_length f l bs hrest
        simp [← h, this]

lemma meshWalk_sum (vertices : List ℚ) :
    ∀ rs : List (ℕ × List ℕ), ∀ cs : List (ℚ × ℚ), ∀ cnts : List (List ℕ),
      (∀ r ∈ rs, (r.2).length = adjustCount r.1) →
      meshWalk vertices (encode_runs rs) = some (cs, cnts) →
      (cnts.map List.sum).sum = cs.length
  | [], cs, cnts, _, h => by
    simp only [encode_runs] at h
    have : mesh_walk_aux vertices 0 [] = some ([], []) := rfl
    rw [meshWalk] at h
    simp only [List.length_nil] at h
    rw [this] at h
    simp only [Option.some.injEq, Prod.mk.injEq] at h
    simp [← h.1, ← h.2]
  | (n, idxs) :: rs, cs, cnts, hlen, h => by
    have hn : idxs.length = adjustCount n := hlen (n, idxs) (List.mem_cons_self _ _)
    have htake : (idxs ++ encode_runs rs).take (adjustCount n) = idxs := by
      rw [← hn]; exact List.take_left idxs (encode_runs rs)
    have hdrop : (idxs ++ encode_runs rs).drop (adjustCount n) = encode_runs rs := by
      rw [← hn]; exact List.drop_left idxs (encode_runs rs)
    rw [encode_runs, meshWalk_cons, htake, hdrop] at h
    match hm : idxs.mapM (vertex_xy vertices) with
    | none => rw [hm] at h; simp at h
    | some cs1 =>
      rw [hm] at h
      match hw : meshWalk vertices (encode_runs rs) with
      | none => rw [hw] at h; simp at h
      | some (cs2, cnts2) =>
        rw [hw] at h
        simp only [Option.some.injEq, Prod.mk.injEq] at h
        have hlen1 : cs1.length = adjustCount n := by
          rw [mapM_some_length (vertex_xy vertices) idxs cs1 hm, hn]
        have hrec := meshWalk_sum vertices rs cs2 cnts2
          (fun r hr => hlen r (List.mem_cons_of_mem _ hr)) hw
        simp [← h.1, ← h.2, hrec, hlen1]

lemma sum_map_one {α : Type} : ∀ l : List α, (l.map (fun _ => (1 : ℕ))).sum = l.length
  | [] => rfl
  | _ :: l => by simp [sum_map_one l, Nat.add_comm]

lemma gis_polyline_walk_sum :
    ∀ geoms : List (List (ℚ × ℚ) × Bool), ∀ acc : List (ℚ × ℚ),
      ((gis_polyline_walk geoms acc).2.map List.sum).sum + acc.length =
        (gis_polyline_walk geoms acc).1.length
  | [], acc => by simp [gis_polyline_walk]
  | (pts, closed) :: rest, acc => by
    simp only [gis_polyline_walk]
    cases happ : decide (2 < (acc ++ pts).length ∧ closed = true ∧
        (acc ++ pts).headD (0, 0) ≠ (acc ++ pts).getLastD (0, 0)) with
    | false =>
      simp only [happ, Bool.false_eq_true, if_false, List.map_cons, List.sum_cons,
        List.sum_nil]
      have := gis_polyline_walk_sum rest (acc ++ pts)
      simp only [List.length_append] at this ⊢
      omega
    | true =>
      simp only [happ, if_true, List.map_cons, List.sum_cons, List.sum_nil]
      have := gis_polyline_walk_sum rest ((acc ++ pts) ++ [(acc ++ pts).headD (0, 0)])
      simp only [List.length_append, List.length_cons, List.length_nil] at this ⊢
      omega

lemma gis_polygon_sum :
    ∀ polys : List (List (ℚ × ℚ) × List (List (ℚ × ℚ))),
      ((polys.map (fun p => p.1.length :: p.2.map List.length)).map List.sum).sum =
        (polys.flatMap (fun p => p.1 ++ p.2.flatten)).length
  | [] => rfl
  | p :: polys => by
    simp only [List.map_cons, List.sum_cons, List.flatMap_cons, List.length_append,
      List.length_flatten]
    rw [gis_polygon_sum polys]

/-- C10 (amended).  For every supported node — with the mesh/Brep face
encoding required to be well-formed — a successful decode satisfies: the
total of the integer part-length entries of `coord_counts` (ignoring the
`None` sentinel, summing nested per-ring lists) equals the number of
coordinate pairs appended, so re-slicing the flat buffer by the encoding
consumes exactly the node's coordinates. -/
theorem counts_total_eq_coords (g : SpeckleGeom) (r : GeomResult)
    (hw : geom_wellformed g) (h : assign_geometry g = .ok r) :
    sum_counts r.counts = r.coords.length := by
  match g with
  | .point x y =>
    simp only [assign_geometry, Except.ok.injEq] at h
    simp [← h, sum_counts]
  | .line x1 y1 x2 y2 =>
    simp only [assign_geometry, Except.ok.injEq] at h
    simp [← h, sum_counts]
  | .polyline pts closed =>
    simp only [assign_geometry, Except.ok.injEq] at h
    simp [← h, sum_counts]
  | .curve pts closed =>
    simp only [assign_geometry, Except.ok.injEq] at h
    simp [← h, sum_counts]
  | .unsupported s =>
    simp only [assign_geometry, Except.ok.injEq] at h
    simp [← h, sum_counts]
  | .brep none => simp [assign_geometry] at h
  | .mesh faces vertices =>
    obtain ⟨rs, rfl, hlen⟩ := hw
    simp only [assign_geometry, decode_mesh] at h
    match hm : meshWalk vertices (encode_runs rs) with
    | none => rw [hm] at h; simp at h
    | some (cs, cnts) =>
      rw [hm] at h
      simp only [Except.ok.injEq] at h
      have := meshWalk_sum vertices rs cs cnts hlen hm
      simp [← h, sum_counts_cons, sum_counts, List.map_map, Function.comp_def,
        Option.getD_some, this]
  | .brep (some (faces, vertices)) =>
    obtain ⟨rs, hfaces, hlen⟩ := hw
    subst hfaces
    simp only [assign_geometry, decode_mesh] at h
    match hm : meshWalk vertices (encode_runs rs) with
    | none => rw [hm] at h; simp at h
    | some (cs, cnts) =>
      rw [hm] at h
      simp only [Except.ok.injEq] at h
      have := meshWalk_sum vertices rs cs cnts hlen hm
      simp [← h, sum_counts_cons, sum_counts, List.map_map, Function.comp_def,
        Option.getD_some, this]
  | .gisPoint pts =>
    match pts with
    | [] =>
      simp only [assign_geometry, List.isEmpty_nil, if_true, Except.ok.injEq] at h
      simp [← h, sum_counts]
    | q :: pts =>
      simp only [assign_geometry, List.isEmpty_cons, if_false, Except.ok.injEq,
        Bool.false_eq_true] at h
      simp [← h, sum_counts_cons, sum_counts, List.map_map, Function.comp_def,
        Option.getD_some, sum_map_one, Nat.add_comm]
  | .gisPolyline geoms =>
    match geoms with
    | [] =>
      simp only [assign_geometry, List.isEmpty_nil, if_true, Except.ok.injEq] at h
      simp [← h, sum_counts]
    | gm :: geoms =>
      simp only [assign_geometry, List.isEmpty_cons, if_false, Except.ok.injEq,
        Bool.false_eq_true] at h
      have := gis_polyline_walk_sum (gm :: geoms) []
      simp only [List.length_nil, Nat.add_zero] at this
      simp [← h, sum_counts_cons, sum_counts, List.map_map, Function.comp_def,
        Option.getD_some, this]
  | .gisPolygon polys =>
    match polys with
    | [] =>
      simp only [assign_geometry, List.isEmpty_nil, if_true, Except.ok.injEq] at h
      simp [← h, sum_counts]
    | p :: polys =>
      simp only [assign_geometry, List.isEmpty_cons, if_false, Except.ok.injEq,
        Bool.false_eq_true] at h
      have := gis_polygon_sum (p :: polys)
      simp [← h, sum_counts_cons, sum_counts, List.map_map, Function.comp_def,
        Option.getD_some, this]
      omega

/-- Witness for C10 (amended) at a well-formed one-face mesh: the counts
total 3 and exactly 3 coordinate pairs were appended. -/
theorem counts_total_eq_coords_witness :
    geom_wellformed (.mesh [3, 0, 1, 2] [0, 0, 0, 1, 0, 0, 0, 1, 0]) ∧
    assign_geometry (.mesh [3, 0, 1, 2] [0, 0, 0, 1, 0, 0, 0, 1, 0]) =
      .ok ⟨some "MultiPolygon", [(0, 0), (1, 0), (0, 1)], [none, some [3]]⟩ ∧
    sum_counts [none, some [3]] = ([((0 : ℚ), (0 : ℚ)), (1, 0), (0, 1)]).length :=
  ⟨⟨[(3, [0, 1, 2])], rfl, by decide⟩, by decide,
   counts_total_eq_coords (.mesh [3, 0, 1, 2] [0, 0, 0, 1, 0, 0, 0, 1, 0])
     ⟨some "MultiPolygon", [(0, 0), (1, 0), (0, 1)], [none, some [3]]⟩
     ⟨[(3, [0, 1, 2])], rfl, by decide⟩ (by decide)⟩

/-- Counterexample to C10 as stated: the malformed mesh run `[5, 0]` (a face
claiming 5 vertices with only one index following) decodes without error to
a non-empty result whose counts total 5 while only 1 coordinate pair was
appended. -/
theorem counts_total_counterexample :
    assign_geometry (.mesh [5, 0] [0, 0, 0]) =
      .ok ⟨some "MultiPolygon", [(0, 0)], [none, some [5]]⟩ ∧
    sum_counts [none, some [5]] = 5 ∧
    ([((0 : ℚ), (0 : ℚ))]).length = 1 ∧ (5 : ℕ) ≠ 1 := by decide

/-- A context item the attribute-preserving path converts into exactly one
feature: not a container, and its display object decodes without error to a
non-empty coordinate list. -/
def is_convertible (it : CtxItem) : Bool :=
  !isContainer it.stype &&
    match assign_geometry it.displayObj with
    | .ok r => !r.coords.isEmpty
    | .error _ => false

lemma limit_msg_ne (limit : ℕ) : limit_msg limit ≠ "" := by
  intro h
  have hlen : (limit_msg limit).length = 0 := by rw [h]; rfl
  rw [limit_msg, String.length_append, String.length_append] at hlen
  have h27 : (" (feature count limited to " : String).length = 27 := rfl
  rw [h27] at hlen
  omega

lemma main_loop_limit (limit : ℕ) :
    ∀ items : List CtxItem,
      ∀ fs : List Feature, ∀ ac : List (ℚ × ℚ),
      ∀ cc : List (List (Option (List ℕ))), ∀ cnt : ℕ, ∀ msg : String,
      cnt ≤ limit →
      limit - cnt < items.countP is_convertible →
      (∀ it ∈ items, assign_geometry it.displayObj ≠ .error .typeError) →
      ∃ out, main_loop limit true items fs ac cc cnt msg = .ok out ∧
        out.features.length = fs.length + (limit - cnt) ∧
        out.message = limit_msg limit
  | [], fs, ac, cc, cnt, msg, _, h2, _ => by
    simp [List.countP_nil] at h2
  | it :: rest, fs, ac, cc, cnt, msg, h1, h2, h3 => by
    by_cases hc : isContainer it.stype = true
    · have hnc : is_convertible it = false := by
        simp [is_convertible, hc]
      rw [List.countP_cons] at h2
      simp only [hnc, if_false, Nat.add_zero, Bool.false_eq_true] at h2
      obtain ⟨out, hout, hlen, hmsg⟩ := main_loop_limit limit rest fs ac cc cnt msg
        h1 h2 (fun i hi => h3 i (List.mem_cons_of_mem _ hi))
      exact ⟨out, by simp only [main_loop, hc, if_true]; exact hout, hlen, hmsg⟩
    · rw [Bool.not_eq_true] at hc
      by_cases hlim : limit ≤ cnt
      · refine ⟨⟨fs, ac, cc, limit_msg limit⟩, ?_, ?_, rfl⟩
        · simp [main_loop, hc, hlim]
        · have : limit - cnt = 0 := by omega
          simp [this]
      · have hcnt : cnt < limit := Nat.lt_of_not_le hlim
        match ha : assign_geometry it.displayObj with
        | .error .typeError =>
          exact absurd ha (h3 it (List.mem_cons_self _ _))
        | .error .indexError =>
          have hnc : is_convertible it = false := by
            simp [is_convertible, hc, ha]
          rw [List.countP_cons] at h2
          simp only [hnc, if_false, Nat.add_zero, Bool.false_eq_true] at h2
          obtain ⟨out, hout, hlen, hmsg⟩ := main_loop_limit limit rest fs ac cc cnt msg
            h1 h2 (fun i hi => h3 i (List.mem_cons_of_mem _ hi))
          refine ⟨out, ?_, hlen, hmsg⟩
          simp only [main_loop, hc, Bool.false_eq_true, if_false, hlim, ha, if_true]
          exact hout
        | .ok r =>
          by_cases hre : r.coords = []
          · have hnc : is_convertible it = false := by
              simp [is_convertible, hc, ha, hre]
            rw [List.countP_cons] at h2
            simp only [hnc, if_false, Nat.add_zero, Bool.false_eq_true] at h2
            obtain ⟨out, hout, hlen, hmsg⟩ := main_loop_limit limit rest fs ac cc cnt msg
              h1 h2 (fun i hi => h3 i (List.mem_cons_of_mem _ hi))
            refine ⟨out, ?_, hlen, hmsg⟩
            simp only [main_loop, hc, Bool.false_eq_true, if_false, hlim, ha, hre, if_true]
            exact hout
          · have hcv : is_convertible it = true := by
              simp [is_convertible, hc, ha, hre, List.isEmpty_iff]
            rw [List.countP_cons] at h2
            simp only [hcv, if_true] at h2
            have h2r : limit - (cnt + 1) < rest.countP is_convertible := by omega
            obtain ⟨out, hout, hlen, hmsg⟩ := main_loop_limit limit rest
              (fs ++ [mkFeature (splitType it.stype) it.itemId (cnt + 1) r])
              (ac ++ r.coords) (cc ++ [r.counts]) (cnt + 1) msg
              hcnt h2r (fun i hi => h3 i (List.mem_cons_of_mem _ hi))
            refine ⟨out, ?_, ?_, hmsg⟩
            · simp only [main_loop, hc, Bool.false_eq_true, if_false, hlim, ha, hre, if_true]
              exact hout
            · rw [hlen]
              simp only [List.length_append, List.length_cons, List.length_nil]
              omega

/-- C4 (amended).  When the traversal context list contains strictly more
than `limit` convertible nodes, none of them aborts extraction with a
`TypeError`, and the run is on the attribute-preserving path (each
convertible node contributes exactly one feature), feature creation produces
exactly `limit` ordinary features and records the non-empty truncation
message; the remaining items are never processed. -/
theorem limit_enforcement (limit : ℕ) (items : List CtxItem)
    (hconv : limit < items.countP is_convertible)
    (hte : ∀ it ∈ items, assign_geometry it.displayObj ≠ .error .typeError) :
    ∃ out, runMain limit true items = .ok out ∧
      out.features.length = limit ∧ out.message ≠ "" := by
  obtain ⟨out, hout, hlen, hmsg⟩ := main_loop_limit limit items [] [] [] 0 ""
    (Nat.zero_le _) (by simpa using hconv) hte
  refine ⟨out, hout, by simpa using hlen, ?_⟩
  rw [hmsg]
  exact limit_msg_ne limit

/-- A minimal convertible point-bearing context item. -/
def point_item : CtxItem :=
  ⟨"Objects.Geometry.Point", "p1", .point 0 0, [.point 0 0]⟩

/-- A point item at `(1, 2)`. -/
def point_item2 : CtxItem :=
  ⟨"Objects.Geometry.Point", "p2", .point 1 2, [.point 1 2]⟩

/-- A Brep whose display value is `None`/empty: its decode returns `None`
and the caller's unpacking raises `TypeError`. -/
def brep_item : CtxItem :=
  ⟨"Objects.Geometry.Brep", "b1", .brep none, [.brep none]⟩

/-- A mesh whose face run references vertex index 5 of a 3-entry vertex
buffer: its decode raises `IndexError`. -/
def idx_item : CtxItem :=
  ⟨"Objects.Geometry.Mesh", "m2", .mesh [3, 5, 5, 5] [0, 0, 0],
   [.mesh [3, 5, 5, 5] [0, 0, 0]]⟩

/-- A collection container wrapping nothing convertible. -/
def coll_item : CtxItem :=
  ⟨"Speckle.Core.Models.Collection", "c1", .unsupported "", []⟩

/-- A node whose display-object list decomposes into two point features. -/
def multi_item : CtxItem :=
  ⟨"Objects.Geometry.Mesh", "m1", .point 0 0, [.point 0 0, .point 1 1]⟩

/-- Witness for C4 (amended) at the spec's example: limit 2 with 5
convertible nodes yields exactly 2 features and a non-empty message. -/
theorem limit_enforcement_witness :
    2 < ([point_item, point_item, point_item, point_item,
      point_item].countP is_convertible) ∧
    (∀ it ∈ [point_item, point_item, point_item, point_item, point_item],
      assign_geometry it.displayObj ≠ .error .typeError) ∧
    ∃ out, runMain 2 true [point_item, point_item, point_item, point_item,
        point_item] = .ok out ∧
      out.features.length = 2 ∧ out.message ≠ "" :=
  ⟨by decide, by decide,
   limit_enforcement 2 [point_item, point_item, point_item, point_item,
     point_item] (by decide) (by decide)⟩

/-- Counterexample to C4 as stated: with limit 1 and two convertible,
supported, non-malformed nodes, the first of which decomposes into two
display objects, the run emits 2 features — the limit check runs only
between nodes, so a node being processed when the limit is crossed still
appends all its features. -/
theorem limit_enforcement_counterexample :
    (Except.map (fun o => o.features.length)
      (runMain 1 false [multi_item, point_item])) = .ok 2 ∧
    (∀ it ∈ [multi_item, point_item], isContainer it.stype = false ∧
      it.displayObjs ≠ [] ∧
      it.displayObjs.all (fun g =>
        ((assign_geometry g).toOption.map (fun r => !r.coords.isEmpty)).getD
          false) = true) ∧
    (2 : ℕ) ≠ 1 := by decide

/-- C5.  `initialize_features` raises the `NoSupportedFeatures` error
exactly when its loops complete (no uncaught `TypeError`) having produced
zero ordinary features and zero comment features; whenever at least one of
either kind was produced, no such error is raised. -/
theorem zero_features_error (limit : ℕ) (preserve : Bool) (rdt : String)
    (items : List CtxItem) (comments : List CommentItem) :
    init_features limit preserve rdt items comments =
        .error .noSupportedFeatures ↔
      ∃ out, run_phase limit preserve rdt items comments = .ok out ∧
        out.features = [] ∧ out.comments = [] := by
  unfold init_features
  cases hp : run_phase limit preserve rdt items comments with
  | error e => simp
  | ok out =>
    simp only []
    by_cases hcond : out.features = [] ∧ out.comments = []
    · rw [if_pos hcond]
      simp only [true_iff]
      exact ⟨out, rfl, hcond.1, hcond.2⟩
    · rw [if_neg hcond]
      constructor
      · intro h
        exact absurd h (by simp)
      · rintro ⟨out2, hout2, hf, hcm⟩
        obtain rfl : out = out2 := by
          simpa using hout2
        exact absurd ⟨hf, hcm⟩ hcond

/-- C6 (amended).  On the attribute-preserving path, a per-node extraction
failure other than `TypeError` is caught: the node is skipped and the run
continues exactly as if it were absent; a `TypeError` is re-raised and
aborts the whole run. -/
theorem extraction_failure_policy (it : CtxItem) (rest : List CtxItem)
    (limit : ℕ) (hc : isContainer it.stype = false) (hl : 0 < limit) :
    (assign_geometry it.displayObj = .error .indexError →
      runMain limit true (it :: rest) = runMain limit true rest) ∧
    (assign_geometry it.displayObj = .error .typeError →
      runMain limit true (it :: rest) = .error ()) := by
  have hnl : ¬ limit ≤ 0 := by omega
  constructor <;> intro ha <;>
    simp [runMain, main_loop, hc, hnl, ha]

/-- Witness for C6 (amended): an `IndexError` mesh is skipped with the run
continuing, and an empty-display Brep's `TypeError` aborts the run. -/
theorem extraction_failure_policy_witness :
    isContainer idx_item.stype = false ∧ (0 : ℕ) < 10 ∧
    assign_geometry idx_item.displayObj = .error .indexError ∧
    assign_geometry brep_item.displayObj = .error .typeError ∧
    runMain 10 true [idx_item] = runMain 10 true [] ∧
    runMain 10 true [brep_item] = .error () :=
  ⟨by decide, by decide, by decide, by decide,
   (extraction_failure_policy idx_item [] 10 (by decide) (by decide)).1
     (by decide),
   (extraction_failure_policy brep_item [] 10 (by decide) (by decide)).2
     (by decide)⟩

/-- Counterexample to C6 as stated: the per-feature decode failure of an
empty-display Brep (a `TypeError`) aborts the whole run — the following
convertible point node is never emitted. -/
theorem extraction_failure_counterexample :
    runMain 10 true [brep_item, point_item] = .error () ∧
    is_convertible point_item = true := by decide

/-- A feature originates from a non-container item of the context list:
some item whose `speckle_type` does not end in `Collection`/`Layer`/`Proxy`
has a display object whose successful decode built the feature. -/
def feature_from (items : List CtxItem) (f : Feature) : Prop :=
  ∃ it ∈ items, isContainer it.stype = false ∧
    ∃ g, (g = it.displayObj ∨ g ∈ it.displayObjs) ∧
      ∃ fId n r, assign_geometry g = .ok r ∧
        f = mkFeature (splitType it.stype) fId n r

lemma feature_from_mono (it : CtxItem) (items : List CtxItem) (f : Feature) :
    feature_from items f → feature_from (it :: items) f := by
  rintro ⟨it2, hmem, hrest⟩
  exact ⟨it2, List.mem_cons_of_mem _ hmem, hrest⟩

lemma inner_loop_src (st fId : String) :
    ∀ gs : List SpeckleGeom, ∀ k : ℕ, ∀ fs : List Feature,
      ∀ ac : List (ℚ × ℚ), ∀ cc : List (List (Option (List ℕ))), ∀ cnt : ℕ,
      ∀ res,
      inner_loop st fId gs k fs ac cc cnt = .ok res →
      ∀ f ∈ res.1, f ∈ fs ∨ ∃ g ∈ gs, ∃ fid2 n r,
        assign_geometry g = .ok r ∧ f = mkFeature st fid2 n r
  | [], k, fs, ac, cc, cnt, res, h => by
    simp only [inner_loop, Except.ok.injEq] at h
    intro f hf
    rw [← h] at hf
    exact Or.inl hf
  | g :: gs, k, fs, ac, cc, cnt, res, h => by
    intro f hf
    match ha : assign_geometry g with
    | .error .typeError =>
      rw [inner_loop, ha] at h
      exact absurd h (by simp)
    | .error .indexError =>
      rw [inner_loop, ha] at h
      rcases inner_loop_src st fId gs (k + 1) fs ac cc cnt res h f hf with hin | ⟨g2, hg2, hrest⟩
      · exact Or.inl hin
      · exact Or.inr ⟨g2, List.mem_cons_of_mem _ hg2, hrest⟩
    | .ok r =>
      by_cases hre : r.coords = []
      · rw [inner_loop, ha] at h
        simp only [] at h
        rw [if_pos hre] at h
        rcases inner_loop_src st fId gs (k + 1) fs ac cc cnt res h f hf with hin | ⟨g2, hg2, hrest⟩
        · exact Or.inl hin
        · exact Or.inr ⟨g2, List.mem_cons_of_mem _ hg2, hrest⟩
      · rw [inner_loop, ha] at h
        simp only [] at h
        rw [if_neg hre] at h
        rcases inner_loop_src st fId gs (k + 1)
          (fs ++ [mkFeature st (fId ++ "_" ++ toString k) (cnt + 1) r])
          (ac ++ r.coords) (cc ++ [r.counts]) (cnt + 1) res h f hf with hin | ⟨g2, hg2, hrest⟩
        · rcases List.mem_append.mp hin with hfs | hnew
          · exact Or.inl hfs
          · exact Or.inr ⟨g, List.mem_cons_self _ _,
              fId ++ "_" ++ toString k, cnt + 1, r, ha, List.mem_singleton.mp hnew⟩
        · exact Or.inr ⟨g2, List.mem_cons_of_mem _ hg2, hrest⟩

lemma main_loop_src (limit : ℕ) (preserve : Bool) :
    ∀ items : List CtxItem, ∀ fs : List Feature, ∀ ac : List (ℚ × ℚ),
      ∀ cc : List (List (Option (List ℕ))), ∀ cnt : ℕ, ∀ msg : String,
      ∀ out : RunOut,
      main_loop limit preserve items fs ac cc cnt msg = .ok out →
      ∀ f ∈ out.features, f ∈ fs ∨ feature_from items f
  | [], fs, ac, cc, cnt, msg, out, h => by
    simp only [main_loop, Except.ok.injEq] at h
    intro f hf
    rw [← h] at hf
    exact Or.inl hf
  | it :: rest, fs, ac, cc, cnt, msg, out, h => by
    intro f hf
    by_cases hc : isContainer it.stype = true
    · rw [main_loop, if_pos hc] at h
      rcases main_loop_src limit preserve rest fs ac cc cnt msg out h f hf with hin | hff
      · exact Or.inl hin
      · exact Or.inr (feature_from_mono it rest f hff)
    · rw [Bool.not_eq_true] at hc
      rw [main_loop, if_neg (by simp [hc])] at h
      by_cases hlim : limit ≤ cnt
      · rw [if_pos hlim] at h
        simp only [Except.ok.injEq] at h
        rw [← h] at hf
        exact Or.inl hf
      · rw [if_neg hlim] at h
        cases preserve with
        | true =>
          rw [if_pos rfl] at h
          match ha : assign_geometry it.displayObj with
          | .error .typeError =>
            rw [ha] at h
            exact absurd h (by simp)
          | .error .indexError =>
            rw [ha] at h
            rcases main_loop_src limit true rest fs ac cc cnt msg out h f hf with hin | hff
            · exact Or.inl hin
            · exact Or.inr (feature_from_mono it rest f hff)
          | .ok r =>
            by_cases hre : r.coords = []
            · rw [ha] at h
              simp only [] at h
              rw [if_pos hre] at h
              rcases main_loop_src limit true rest fs ac cc cnt msg out h f hf with hin | hff
              · exact Or.inl hin
              · exact Or.inr (feature_from_mono it rest f hff)
            · rw [ha] at h
              simp only [] at h
              rw [if_neg hre] at h
              rcases main_loop_src limit true rest
                (fs ++ [mkFeature (splitType it.stype) it.itemId (cnt + 1) r])
                (ac ++ r.coords) (cc ++ [r.counts]) (cnt + 1) msg out h f hf with hin | hff
              · rcases List.mem_append.mp hin with hfs | hnew
                · exact Or.inl hfs
                · exact Or.inr ⟨it, List.mem_cons_self _ _, hc, it.displayObj,
                    Or.inl rfl, it.itemId, cnt + 1, r, ha,
                    List.mem_singleton.mp hnew⟩
              · exact Or.inr (feature_from_mono it rest f hff)
        | false =>
          rw [if_neg (by simp)] at h
          match hi : inner_loop (splitType it.stype) it.itemId it.displayObjs
              0 fs ac cc cnt with
          | .error e =>
            rw [hi] at h
            exact absurd h (by simp)
          | .ok (fs2, ac2, cc2, cnt2) =>
            rw [hi] at h
            rcases main_loop_src limit false rest fs2 ac2 cc2 cnt2 msg out h f hf with hin | hff
            · rcases inner_loop_src (splitType it.stype) it.itemId
                it.displayObjs 0 fs ac cc cnt (fs2, ac2, cc2, cnt2) hi f hin with hfs | ⟨g2, hg2, fid2, n, r, har, hfeq⟩
              · exact Or.inl hfs
              · exact Or.inr ⟨it, List.mem_cons_self _ _, hc, g2, Or.inr hg2,
                  fid2, n, r, har, hfeq⟩
            · exact Or.inr (feature_from_mono it rest f hff)

/-- C9.  Every feature the ordinary-feature pass emits originates from a
non-container item of the context list: nodes whose `speckle_type` ends in
`Collection`, `Layer` or `Proxy` are skipped and never emitted (the descent
into them is performed by the external `specklepy` graph traversal, whose
repo-side rule expands every type outside the supported-geometry set). -/
theorem containers_never_emitted (limit : ℕ) (preserve : Bool)
    (items : List CtxItem) (out : RunOut)
    (h : runMain limit preserve items = .ok out) :
    ∀ f ∈ out.features, feature_from items f := by
  intro f hf
  rcases main_loop_src limit preserve items [] [] [] 0 "" out h f hf with hin | hff
  · exact absurd hin (List.not_mem_nil f)
  · exact hff

/-- Witness for C9: a run over a collection container followed by a point
node emits exactly the point's feature, and it originates from the
non-container item. -/
theorem containers_never_emitted_witness :
    runMain 10 true [coll_item, point_item] =
      .ok ⟨[⟨1, "p1", "Objects.Geometry.Point", some "MultiPoint",
        [0, 0, 0, 0]⟩], [(0, 0)], [[none, some [1]]], ""⟩ ∧
    ∀ f ∈ ([⟨1, "p1", "Objects.Geometry.Point", some "MultiPoint",
        [0, 0, 0, 0]⟩] : List Feature),
      feature_from [coll_item, point_item] f :=
  ⟨by decide,
   containers_never_emitted 10 true [coll_item, point_item]
     ⟨[⟨1, "p1", "Objects.Geometry.Point", some "MultiPoint", [0, 0, 0, 0]⟩],
      [(0, 0)], [[none, some [1]]], ""⟩ (by decide)⟩

lemma run_phase_feature_src (limit : ℕ) (preserve : Bool) (rdt : String)
    (items : List CtxItem) (comments : List CommentItem) (out : PhaseOut)
    (h : run_phase limit preserve rdt items comments = .ok out) :
    ∀ f ∈ out.features, feature_from items f := by
  unfold run_phase at h
  by_cases hr : rdt ≠ "projectcomments"
  · rw [if_pos hr] at h
    match hm : runMain limit preserve items with
    | .error e =>
      rw [hm] at h
      exact absurd h (by simp)
    | .ok out0 =>
      rw [hm] at h
      simp only [Except.ok.injEq] at h
      intro f hf
      rw [← h] at hf
      rcases main_loop_src limit preserve items [] [] [] 0 "" out0 hm f hf with hin | hff
      · exact absurd hin (List.not_mem_nil f)
      · exact hff
  · rw [if_neg hr] at h
    match hcl : comments_loop limit comments [] [] [] "" with
    | (cs, ac, cc, msg) =>
      rw [hcl] at h
      simp only [Except.ok.injEq] at h
      intro f hf
      rw [← h] at hf
      exact absurd hf (List.not_mem_nil f)

lemma init_features_feature_src (limit : ℕ) (preserve : Bool) (rdt : String)
    (items : List CtxItem) (comments : List CommentItem) (out : PhaseOut)
    (h : init_features limit preserve rdt items comments = .ok out) :
    ∀ f ∈ out.features, feature_from items f := by
  unfold init_features at h
  cases hp : run_phase limit preserve rdt items comments with
  | error e =>
    rw [hp] at h
    exact absurd h (by simp)
  | ok out0 =>
    rw [hp] at h
    simp only [] at h
    by_cases hcond : out0.features = [] ∧ out0.comments = []
    · rw [if_pos hcond] at h
      exact absurd h (by simp)
    · rw [if_neg hcond] at h
      simp only [Except.ok.injEq] at h
      rw [← h]
      exact run_phase_feature_src limit preserve rdt items comments out0 hp

/-- C8 (amended).  Every ordinary feature the conversion run emits carries a
bounding box computed by `get_feature_bbox` from the *decoder's*
(pre-transform) coordinates of the node it was built from; the bulk
transform step only rewrites geometry coordinates and never recomputes the
bbox. -/
theorem bbox_from_decoder_coords (T : ℚ × ℚ → ℚ × ℚ) (limit : ℕ)
    (preserve : Bool) (rdt : String) (items : List CtxItem)
    (comments : List CommentItem)
    (pairs : List ((Feature ⊕ CFeature) × List (ℚ × ℚ)))
    (h : create_features T limit preserve rdt items comments = .ok pairs) :
    ∀ q ∈ pairs, ∀ f : Feature, q.1 = Sum.inl f →
      ∃ st fId n r, f = mkFeature st fId n r ∧
        f.bbox = get_feature_bbox r.coords := by
  unfold create_features at h
  match hi : init_features limit preserve rdt items comments with
  | .error e =>
    rw [hi] at h
    exact absurd h (by simp)
  | .ok out =>
    rw [hi] at h
    simp only [Except.ok.injEq] at h
    rintro ⟨a, b⟩ hq f hfq
    rw [← h] at hq
    have hmem := (List.of_mem_zip hq).1
    simp only at hfq
    rw [hfq] at hmem
    rcases List.mem_append.mp hmem with hl | hr2
    · obtain ⟨f0, hf0, heq⟩ := List.mem_map.mp hl
      have hff : f0 = f := by simpa using heq
      rcases init_features_feature_src limit preserve rdt items comments out hi
        f0 hf0 with ⟨it, _, _, g, _, fId, n, r, _, hfeq⟩
      refine ⟨splitType it.stype, fId, n, r, ?_, ?_⟩
      · rw [← hff]
        exact hfeq
      · rw [← hff, hfeq]
        rfl
    · obtain ⟨c0, _, heq⟩ := List.mem_map.mp hr2
      exact absurd heq (by simp)

/-- Witness for C8 (amended): a run over one point node, with the bulk
transform modelled by the coordinate swap, emits a feature whose stored bbox
is `get_feature_bbox` of the decoder coordinates `[(1, 2)]`. -/
theorem bbox_from_decoder_coords_witness :
    create_features (fun p => (p.2, p.1)) 10 true "results" [point_item2] [] =
      .ok [(Sum.inl ⟨1, "p2", "Objects.Geometry.Point", some "MultiPoint",
        [1, 2, 1, 2]⟩, [(2, 1)])] ∧
    ∀ q ∈ ([(Sum.inl (⟨1, "p2", "Objects.Geometry.Point", some "MultiPoint",
        [1, 2, 1, 2]⟩ : Feature), [((2 : ℚ), (1 : ℚ))])] :
        List ((Feature ⊕ CFeature) × List (ℚ × ℚ))),
      ∀ f : Feature, q.1 = Sum.inl f →
        ∃ st fId n r, f = mkFeature st fId n r ∧
          f.bbox = get_feature_bbox r.coords :=
  ⟨by decide,
   bbox_from_decoder_coords (fun p => (p.2, p.1)) 10 true "results"
     [point_item2] [] _ (by decide)⟩

/-- Counterexample to C8 as stated: a point node at `(1, 2)` run through a
transform that swaps coordinates is emitted with stored bbox `[1, 2, 1, 2]`
(pre-transform), while its post-transform geometry `[(2, 1)]` has bounding
box `[2, 1, 2, 1]` — the stored bbox is not computed from post-transform
coordinates. -/
theorem bbox_not_post_transform :
    create_features (fun p => (p.2, p.1)) 10 true "results" [point_item2] [] =
      .ok [(Sum.inl ⟨1, "p2", "Objects.Geometry.Point", some "MultiPoint",
        [1, 2, 1, 2]⟩, [(2, 1)])] ∧
    get_feature_bbox [((2 : ℚ), (1 : ℚ))] = [2, 1, 2, 1] ∧
    ([(1 : ℚ), 2, 1, 2] : List ℚ) ≠ [2, 1, 2, 1] := by decide

end Speckle
